import Mathlib

/-!
Verification development for the dioxus-motion2 animation core.

The Rust source is shallowly embedded: machine floats (f32) are modelled by
the rationals, the Animatable trait by a structure of operations, stateful
methods by explicit state passing, and callback side effects by explicit
outputs (a Bool flag or list of callback identifiers reporting which
callbacks the call executed).
-/

/-- State of an animation, from src/animation.rs (AnimationState). -/
inductive AnimationState where
  | Active
  | Completed
deriving DecidableEq, BEq

/-- Animation loop mode, from src/animation.rs (LoopMode). -/
inductive LoopMode where
  | None
  | Infinite
  | Count (n : Nat)
deriving DecidableEq, BEq

/-- Animation playback direction, from src/animation.rs (PlaybackDirection). -/
inductive PlaybackDirection where
  | Forward
  | Reverse
  | Alternate
  | AlternateReverse
deriving DecidableEq, BEq

/-- Animation timing options, from src/animation.rs (AnimationTiming).
The on_complete field of the source holds an optional callback closure; here
it records whether a callback is installed. -/
structure AnimationTiming where
  loop_mode : LoopMode
  direction : PlaybackDirection
  delay : ℚ
  current_loop : Nat
  delay_elapsed : Bool
  on_complete : Bool
deriving DecidableEq

/-- The Default impl for AnimationTiming in src/animation.rs. -/
def AnimationTiming.default : AnimationTiming :=
  { loop_mode := LoopMode.None
    direction := PlaybackDirection.Forward
    delay := 0
    current_loop := 0
    delay_elapsed := false
    on_complete := false }

/-- AnimationTiming::handle_delay from src/animation.rs. Returns the Bool the
source returns, paired with the mutated timing state. -/
def AnimationTiming.handle_delay (t : AnimationTiming) (dt : ℚ) :
    Bool × AnimationTiming :=
  if t.delay_elapsed then (true, t)
  else if t.delay = 0 then (true, { t with delay_elapsed := true })
  else if t.delay ≤ dt then (true, { t with delay := 0, delay_elapsed := true })
  else (false, { t with delay := t.delay - dt })

/-- Direction toggling inside handle_loop_completion: Alternate and
AlternateReverse swap, other directions are unchanged. -/
def PlaybackDirection.toggle : PlaybackDirection → PlaybackDirection
  | PlaybackDirection.Alternate => PlaybackDirection.AlternateReverse
  | PlaybackDirection.AlternateReverse => PlaybackDirection.Alternate
  | d => d

/-- AnimationTiming::handle_loop_completion from src/animation.rs. Returns
(continue, callback-invoked, new state): the Bool the source returns, whether
the installed completion callback was executed during the call, and the
mutated timing state. -/
def AnimationTiming.handle_loop_completion (t : AnimationTiming) :
    Bool × Bool × AnimationTiming :=
  match t.loop_mode with
  | LoopMode.None => (false, t.on_complete, t)
  | LoopMode.Infinite =>
      let t1 := { t with current_loop := t.current_loop + 1 }
      (true, false, { t1 with direction := t1.direction.toggle })
  | LoopMode.Count count =>
      let t1 := { t with current_loop := t.current_loop + 1 }
      if count ≤ t1.current_loop then (false, t.on_complete, t1)
      else (true, false, { t1 with direction := t1.direction.toggle })

/-- AnimationTiming::is_reverse from src/animation.rs. -/
def AnimationTiming.is_reverse (t : AnimationTiming) : Bool :=
  match t.direction with
  | PlaybackDirection.Forward => false
  | PlaybackDirection.Reverse => true
  | PlaybackDirection.Alternate => t.current_loop % 2 == 1
  | PlaybackDirection.AlternateReverse => t.current_loop % 2 == 0

/-- The Animatable trait from src/animatable.rs, as a structure of operations
over a carrier type. -/
structure Animatable (α : Type) where
  zero : α
  epsilon : ℚ
  magnitude : α → ℚ
  scale : α → ℚ → α
  add : α → α → α
  sub : α → α → α
  interpolate : α → α → ℚ → α

/-- The impl of Animatable for f32 in src/animatable.rs, over the rational
model of f32. -/
def f32Animatable : Animatable ℚ :=
  { zero := 0
    epsilon := 1 / 1000
    magnitude := fun x => |x|
    scale := fun x factor => x * factor
    add := fun a b => a + b
    sub := fun a b => a - b
    interpolate := fun a b t =>
      let t' := min (max t 0) 1
      a * (1 - t') + b * t' }

/-- Spring configuration, from src/spring.rs (struct Spring). -/
structure Spring where
  stiffness : ℚ
  damping : ℚ
  mass : ℚ
  initial_velocity : Option ℚ
deriving DecidableEq

/-- The Default impl for Spring in src/spring.rs. -/
def Spring.default : Spring :=
  { stiffness := 100, damping := 10, mass := 1, initial_velocity := none }

/-- Spring::stiffness in src/spring.rs (the builder method clamps to a floor
of 0.1; named set_stiffness here because the field is already called
stiffness). -/
def Spring.set_stiffness (sp : Spring) (stiffness : ℚ) : Spring :=
  { sp with stiffness := max stiffness (1 / 10) }

/-- Spring::damping in src/spring.rs (clamps to at least 0). -/
def Spring.set_damping (sp : Spring) (damping : ℚ) : Spring :=
  { sp with damping := max damping 0 }

/-- Spring::mass in src/spring.rs (clamps to a floor of 0.1). -/
def Spring.set_mass (sp : Spring) (mass : ℚ) : Spring :=
  { sp with mass := max mass (1 / 10) }

/-- Spring-based animation state, from src/spring.rs (struct SpringAnimation). -/
structure SpringAnimation (α : Type) where
  initial : α
  current : α
  target : α
  velocity : α
  spring : Spring
  timing : AnimationTiming
  is_active : Bool

/-- Spring::create_animation from src/spring.rs: seeds the animation with the
given initial value and initial velocity and a default timing. -/
def Spring.create_animation {α : Type} (sp : Spring) (initial target initial_velocity : α) :
    SpringAnimation α :=
  { initial := initial
    current := initial
    target := target
    velocity := initial_velocity
    spring := sp
    timing := AnimationTiming.default
    is_active := true }

/-- SpringAnimation::update_physics from src/spring.rs. Returns the mutated
animation and the Bool the source returns (true while still active). -/
def SpringAnimation.update_physics {α : Type} (s : SpringAnimation α)
    (ops : Animatable α) (dt : ℚ) : SpringAnimation α × Bool :=
  let dt' := min dt (8 / 125)
  let displacement := ops.sub s.target s.current
  let spring_force := ops.scale displacement s.spring.stiffness
  let damping_force := ops.scale s.velocity s.spring.damping
  let acceleration := ops.scale (ops.sub spring_force damping_force) (1 / s.spring.mass)
  let velocity := ops.add s.velocity (ops.scale acceleration dt')
  let current := ops.add s.current (ops.scale velocity dt')
  if ops.magnitude velocity < ops.epsilon ∧ ops.magnitude displacement < ops.epsilon then
    ({ s with velocity := velocity, current := s.target }, false)
  else
    ({ s with velocity := velocity, current := current }, true)

/-- Animation::update for SpringAnimation in src/spring.rs. Returns the
(state, value, velocity) triple the source returns, plus the mutated
animation. -/
def SpringAnimation.update {α : Type} (ops : Animatable α) (s : SpringAnimation α)
    (dt : ℚ) : AnimationState × α × α × SpringAnimation α :=
  if s.is_active = false then (AnimationState.Completed, s.current, ops.zero, s)
  else
    match s.timing.handle_delay dt with
    | (false, t') => (AnimationState.Active, s.current, ops.zero, { s with timing := t' })
    | (true, t') =>
      let s1 := { s with timing := t' }
      match s1.update_physics ops dt with
      | (s2, true) => (AnimationState.Active, s2.current, s2.velocity, s2)
      | (s2, false) =>
        match s2.timing.handle_loop_completion with
        | (true, _, t2) =>
            let s3 := { s2 with timing := t2, current := s2.initial, velocity := ops.zero }
            (AnimationState.Active, s3.current, s3.velocity, s3)
        | (false, _, t2) =>
            let s3 := { s2 with timing := t2, is_active := false }
            (AnimationState.Completed, s3.current, ops.zero, s3)

/-- The core animation engine from src/core.rs (struct AnimationEngine). The
boxed dyn Animation is a value of the parameter type sigma; the callback queue
holds abstract callback identifiers. -/
structure AnimationEngine (α σ : Type) where
  current : α
  velocity : α
  animation : Option σ
  is_active : Bool
  callbacks : List Nat

/-- AnimationEngine::new from src/core.rs. -/
def AnimationEngine.new {α σ : Type} (ops : Animatable α) (initial : α) :
    AnimationEngine α σ :=
  { current := initial
    velocity := ops.zero
    animation := none
    is_active := false
    callbacks := [] }

/-- AnimationEngine::update from src/core.rs. The stepping behaviour of the
boxed animation is the parameter step. Returns the Bool the source returns,
the mutated engine, and the list of queued callbacks the call executed (the
source never executes any, so this list is always empty). -/
def AnimationEngine.update {α σ : Type} (ops : Animatable α)
    (step : σ → ℚ → AnimationState × α × α × σ)
    (e : AnimationEngine α σ) (dt : ℚ) : Bool × AnimationEngine α σ × List Nat :=
  if e.is_active = false then (false, e, [])
  else
    match e.animation with
    | some a =>
      match step a dt with
      | (AnimationState.Active, value, velocity, a') =>
          (true, { e with current := value, velocity := velocity, animation := some a' }, [])
      | (AnimationState.Completed, value, _, _) =>
          (false, { e with current := value, velocity := ops.zero,
                           is_active := false, animation := none }, [])
    | none => (false, e, [])

/-- AnimationEngine::add_completion_callback from src/core.rs: pushes the
callback onto the queue. -/
def AnimationEngine.add_completion_callback {α σ : Type} (e : AnimationEngine α σ)
    (callback : Nat) : AnimationEngine α σ :=
  { e with callbacks := e.callbacks ++ [callback] }

/-- AnimationEngine::spring_to from src/core.rs: installs a spring animation
seeded with the engine's current value and current velocity. -/
def AnimationEngine.spring_to {α : Type} (e : AnimationEngine α (SpringAnimation α))
    (target : α) (spring : Spring) : AnimationEngine α (SpringAnimation α) :=
  { e with animation := some (spring.create_animation e.current target e.velocity)
           is_active := true }

/-- An entry of an animation group, from src/group.rs (struct GroupItem). -/
structure GroupItem (σ : Type) where
  animation : σ
  completed : Bool

/-- A group of animations run in parallel, from src/group.rs
(struct AnimationGroup). The on_complete field records whether a completion
callback is installed. -/
structure AnimationGroup (α σ : Type) where
  animations : List (GroupItem σ)
  is_active : Bool
  on_complete : Bool

/-- The update loop over the group items inside AnimationGroup::update in
src/group.rs, threading the combined value, combined velocity and the
all_completed flag left to right exactly as the source loop does. -/
def AnimationGroup.updateItems {α σ : Type} (ops : Animatable α)
    (step : σ → ℚ → AnimationState × α × α × σ) (dt : ℚ) :
    List (GroupItem σ) → α → α → Bool → List (GroupItem σ) × α × α × Bool
  | [], accV, accW, allC => ([], accV, accW, allC)
  | item :: rest, accV, accW, allC =>
    if item.completed then
      let (r, v, w, c) := AnimationGroup.updateItems ops step dt rest accV accW allC
      (item :: r, v, w, c)
    else
      match step item.animation dt with
      | (st, value, velocity, a') =>
        let completedNow := st == AnimationState.Completed
        let (r, v, w, c) := AnimationGroup.updateItems ops step dt rest
          (ops.add accV value) (ops.add accW velocity) (allC && completedNow)
        ({ animation := a', completed := completedNow } :: r, v, w, c)

/-- Animation::update for AnimationGroup in src/group.rs. Returns the
(state, value, velocity) triple the source returns, the mutated group, and
whether the completion callback was executed during the call. -/
def AnimationGroup.update {α σ : Type} (ops : Animatable α)
    (step : σ → ℚ → AnimationState × α × α × σ)
    (g : AnimationGroup α σ) (dt : ℚ) :
    AnimationState × α × α × AnimationGroup α σ × Bool :=
  if g.is_active = false ∨ g.animations.isEmpty then
    (AnimationState.Completed, ops.zero, ops.zero, g, false)
  else
    match AnimationGroup.updateItems ops step dt g.animations ops.zero ops.zero true with
    | (items', v, w, allC) =>
      if allC then
        (AnimationState.Completed, v, w,
          { g with animations := items', is_active := false }, g.on_complete)
      else
        (AnimationState.Active, v, w, { g with animations := items' }, false)

/-- A step of an animation sequence, from src/sequence.rs
(struct AnimationStep). -/
structure AnimationStep (σ : Type) where
  animation : σ
  started : Bool
  completed : Bool

/-- A sequence of animations run one after another, from src/sequence.rs
(struct AnimationSequence). The on_complete field records whether a completion
callback is installed. -/
structure AnimationSequence (α σ : Type) where
  steps : List (AnimationStep σ)
  current_step : Nat
  current : α
  velocity : α
  is_active : Bool
  on_complete : Bool

/-- Animation::update for AnimationSequence in src/sequence.rs. Returns the
(state, value, velocity) triple the source returns, the mutated sequence, and
whether the completion callback was executed during the call. Rust panics on
an out-of-bounds step index; that branch is modelled by an inert result and
is unreachable while the index stays in bounds. -/
def AnimationSequence.update {α σ : Type} (ops : Animatable α)
    (step : σ → ℚ → AnimationState × α × α × σ)
    (s : AnimationSequence α σ) (dt : ℚ) :
    AnimationState × α × α × AnimationSequence α σ × Bool :=
  if s.is_active = false then (AnimationState.Completed, s.current, ops.zero, s, false)
  else if s.steps.isEmpty then
    (AnimationState.Completed, s.current, ops.zero, { s with is_active := false }, false)
  else
    match s.steps.get? s.current_step with
    | none => (AnimationState.Completed, s.current, ops.zero, s, false)
    | some cur =>
      match step cur.animation dt with
      | (st, value, velocity, a') =>
        let s1 := { s with
          current := value
          velocity := velocity
          steps := s.steps.set s.current_step
            { cur with animation := a', started := true } }
        if st = AnimationState.Completed then
          let steps2 := s.steps.set s.current_step
            { cur with animation := a', started := true, completed := true }
          if s.current_step < s.steps.length - 1 then
            let nextIdx := s.current_step + 1
            let steps3 :=
              match steps2.get? nextIdx with
              | some nxt => steps2.set nextIdx { nxt with started := true }
              | none => steps2
            (AnimationState.Active, value, velocity,
              { s1 with steps := steps3, current_step := nextIdx }, false)
          else
            (AnimationState.Completed, value, ops.zero,
              { s1 with steps := steps2, is_active := false }, s.on_complete)
        else
          (AnimationState.Active, value, velocity, s1, false)

/-- The easer-crate easing signature fn(t, b, c, d) -> value, over the
rational model of f32. -/
def EasingFunction : Type := ℚ → ℚ → ℚ → ℚ → ℚ

/-- Linear::ease_in_out from the easer crate: c * t / d + b. -/
def linearEaseInOut : EasingFunction := fun t b c d => c * t / d + b

/-- Tween configuration, from src/animations/tween.rs (struct Tween). -/
structure Tween where
  duration : ℚ
  easing : EasingFunction

/-- Tween animation state, from src/animations/tween.rs
(struct TweenAnimation). -/
structure TweenAnimation (α : Type) where
  initial : α
  current : α
  target : α
  tween : Tween
  timing : AnimationTiming
  elapsed : ℚ
  is_active : Bool

/-- TweenAnimation::new from src/animations/tween.rs. -/
def TweenAnimation.new {α : Type} (initial target : α) (tween : Tween)
    (timing : AnimationTiming) : TweenAnimation α :=
  { initial := initial
    current := initial
    target := target
    tween := tween
    timing := timing
    elapsed := 0
    is_active := true }

/-- Tween::create_animation from src/animations/tween.rs. -/
def Tween.create_animation {α : Type} (tw : Tween) (initial target : α) :
    TweenAnimation α :=
  TweenAnimation.new initial target tw AnimationTiming.default

/-- Animation::update for TweenAnimation in src/animations/tween.rs. Returns
the (state, value, velocity) triple the source returns, plus the mutated
animation. -/
def TweenAnimation.update {α : Type} (ops : Animatable α) (a : TweenAnimation α)
    (dt : ℚ) : AnimationState × α × α × TweenAnimation α :=
  if a.is_active = false then (AnimationState.Completed, a.current, ops.zero, a)
  else
    match a.timing.handle_delay dt with
    | (false, t') => (AnimationState.Active, a.current, ops.zero, { a with timing := t' })
    | (true, t') =>
      let elapsed := a.elapsed + dt
      let duration := a.tween.duration
      let progress0 := if 0 < duration then min (max (elapsed / duration) 0) 1 else 1
      let isRev := t'.is_reverse
      let progress := if isRev then 1 - progress0 else progress0
      let eased := a.tween.easing progress 0 1 1
      let current := ops.interpolate a.initial a.target eased
      let velocity :=
        if 0 < dt then
          let prev_progress :=
            if 0 < duration then min (max ((elapsed - dt) / duration) 0) 1 else 1
          let prev_eased := a.tween.easing prev_progress 0 1 1
          let prev_value := ops.interpolate a.initial a.target prev_eased
          ops.scale (ops.sub prev_value current) (1 / dt)
        else ops.zero
      let completed : Bool := if isRev then decide (progress ≤ 0) else decide (1 ≤ progress)
      if completed then
        let current2 := if isRev then a.initial else a.target
        match t'.handle_loop_completion with
        | (true, _, t2) =>
            (AnimationState.Active, current2, velocity,
              { a with current := current2, elapsed := 0, timing := t2 })
        | (false, _, t2) =>
            (AnimationState.Completed, current2, ops.zero,
              { a with current := current2, elapsed := elapsed, timing := t2,
                       is_active := false })
      else
        (AnimationState.Active, current, velocity,
          { a with current := current, elapsed := elapsed, timing := t' })

/-- A keyframe with value and optional easing, from src/animations/keyframe.rs
(struct Keyframe). -/
structure Keyframe (α : Type) where
  value : α
  easing : Option EasingFunction

/-- Keyframe animation state, from src/animations/keyframe.rs
(struct KeyframeAnimation). The BTreeMap of keyframes is modelled by an
association list kept sorted by position, mirroring the map's iteration
order. -/
structure KeyframeAnimation (α : Type) where
  keyframes : List (ℚ × Keyframe α)
  duration : ℚ
  timing : AnimationTiming
  current_time : ℚ
  current : α
  velocity : α
  prev_time : ℚ
  prev_value : α
  is_active : Bool

/-- BTreeMap::insert on the sorted association list: duplicate positions
overwrite, other entries keep their sorted place. -/
def insertKeyframe {α : Type} : List (ℚ × Keyframe α) → ℚ → Keyframe α →
    List (ℚ × Keyframe α)
  | [], pos, kf => [(pos, kf)]
  | (p, k) :: rest, pos, kf =>
    if pos < p then (pos, kf) :: (p, k) :: rest
    else if pos = p then (pos, kf) :: rest
    else (p, k) :: insertKeyframe rest pos kf

/-- KeyframeAnimation::new from src/animations/keyframe.rs: seeds the table
with default keyframes at positions 0.0 and 1.0 holding the zero value. -/
def KeyframeAnimation.new {α : Type} (ops : Animatable α) (duration : ℚ) :
    KeyframeAnimation α :=
  { keyframes := [(0, { value := ops.zero, easing := none }),
                  (1, { value := ops.zero, easing := none })]
    duration := duration
    timing := AnimationTiming.default
    current_time := 0
    current := ops.zero
    velocity := ops.zero
    prev_time := 0
    prev_value := ops.zero
    is_active := true }

/-- KeyframeAnimation::add_keyframe from src/animations/keyframe.rs: the
position is clamped to the unit interval before insertion. -/
def KeyframeAnimation.add_keyframe {α : Type} (a : KeyframeAnimation α)
    (position : ℚ) (value : α) : KeyframeAnimation α :=
  { a with keyframes :=
      insertKeyframe a.keyframes (min (max position 0) 1) { value := value, easing := none } }

/-- KeyframeAnimation::add_keyframe_with_easing from
src/animations/keyframe.rs. -/
def KeyframeAnimation.add_keyframe_with_easing {α : Type} (a : KeyframeAnimation α)
    (position : ℚ) (value : α) (easing : EasingFunction) : KeyframeAnimation α :=
  { a with keyframes :=
      insertKeyframe a.keyframes (min (max position 0) 1) { value := value, easing := some easing } }

/-- The scan loop inside KeyframeAnimation::find_surrounding_keyframes in
src/animations/keyframe.rs: prev becomes the last entry with key at most the
position, next the first entry beyond it (where the loop breaks). -/
def findSurroundingAux {α : Type} (position : ℚ) (prev : Option (ℚ × Keyframe α)) :
    List (ℚ × Keyframe α) → Option (ℚ × Keyframe α) × Option (ℚ × Keyframe α)
  | [] => (prev, none)
  | (p, kf) :: rest =>
    if p ≤ position then findSurroundingAux position (some (p, kf)) rest
    else (prev, some (p, kf))

/-- KeyframeAnimation::find_surrounding_keyframes from
src/animations/keyframe.rs. -/
def KeyframeAnimation.find_surrounding_keyframes {α : Type}
    (a : KeyframeAnimation α) (position : ℚ) :
    Option (ℚ × Keyframe α) × Option (ℚ × Keyframe α) :=
  findSurroundingAux position none a.keyframes

/-- Animation::update for KeyframeAnimation in src/animations/keyframe.rs.
Returns the (state, value, velocity) triple the source returns, plus the
mutated animation. -/
def KeyframeAnimation.update {α : Type} (ops : Animatable α)
    (a : KeyframeAnimation α) (dt : ℚ) : AnimationState × α × α × KeyframeAnimation α :=
  if a.is_active = false then (AnimationState.Completed, a.current, ops.zero, a)
  else
    match a.timing.handle_delay dt with
    | (false, t') => (AnimationState.Active, a.current, ops.zero, { a with timing := t' })
    | (true, t') =>
      let prev_time := a.current_time
      let prev_value := a.current
      let current_time := a.current_time + dt
      let a1 := { a with
        timing := t'
        prev_time := prev_time
        prev_value := prev_value
        current_time := current_time }
      if a.duration ≤ current_time then
        match t'.handle_loop_completion with
        | (true, _, t2) =>
          let a2 := { a1 with timing := t2, current_time := 0, prev_time := 0 }
          let a3 :=
            if t2.is_reverse then
              match a2.keyframes.getLast? with
              | some (_, kf) => { a2 with current := kf.value, prev_value := kf.value }
              | none => a2
            else
              match a2.keyframes.head? with
              | some (_, kf) => { a2 with current := kf.value, prev_value := kf.value }
              | none => a2
          (AnimationState.Active, a3.current, ops.zero, a3)
        | (false, _, t2) =>
          let a2 := { a1 with timing := t2, is_active := false }
          let a3 :=
            if t2.is_reverse then
              match a2.keyframes.head? with
              | some (_, kf) => { a2 with current := kf.value }
              | none => a2
            else
              match a2.keyframes.getLast? with
              | some (_, kf) => { a2 with current := kf.value }
              | none => a2
          (AnimationState.Completed, a3.current, ops.zero, a3)
      else
        let position0 := min (max (current_time / a.duration) 0) 1
        let position := if t'.is_reverse then 1 - position0 else position0
        let current :=
          match findSurroundingAux position none a.keyframes with
          | (some (prev_pos, prev_kf), some (next_pos, next_kf)) =>
            let segment_length := next_pos - prev_pos
            let segment_position :=
              if 0 < segment_length then (position - prev_pos) / segment_length else 0
            let eased :=
              match prev_kf.easing with
              | none => linearEaseInOut segment_position 0 1 1
              | some e => e segment_position 0 1 1
            ops.interpolate prev_kf.value next_kf.value eased
          | (some (_, kf), none) => kf.value
          | (none, _) => a.current
        let velocity :=
          if 0 < dt then ops.scale (ops.sub prev_value current) dt else a.velocity
        (AnimationState.Active, current, velocity,
          { a1 with current := current, velocity := velocity })

/-- Builder for spring animations on a MotionValue, from src/core.rs
(struct SpringBuilder). The completion callback is recorded as present or
absent. -/
structure SpringBuilder (α : Type) where
  spring : Spring
  target : Option α
  has_completion_callback : Bool

/-- SpringBuilder::new from src/core.rs. -/
def SpringBuilder.new (α : Type) : SpringBuilder α :=
  { spring := Spring.default, target := none, has_completion_callback := false }

/-- SpringBuilder::stiffness from src/core.rs: stores the given stiffness
with no clamping. -/
def SpringBuilder.stiffness {α : Type} (b : SpringBuilder α) (stiffness : ℚ) :
    SpringBuilder α :=
  { b with spring := { b.spring with stiffness := stiffness } }

/-- SpringBuilder::damping from src/core.rs: stores the given damping with no
clamping. -/
def SpringBuilder.damping {α : Type} (b : SpringBuilder α) (damping : ℚ) :
    SpringBuilder α :=
  { b with spring := { b.spring with damping := damping } }

/-- SpringBuilder::mass from src/core.rs: stores the given mass with no
clamping. -/
def SpringBuilder.mass {α : Type} (b : SpringBuilder α) (mass : ℚ) :
    SpringBuilder α :=
  { b with spring := { b.spring with mass := mass } }

/-- SpringBuilder::animate_to from src/core.rs, acting on the engine behind
the MotionValue: queues the completion callback if one was configured, then
starts a spring animation with the builder's spring. -/
def SpringBuilder.animate_to {α : Type} (b : SpringBuilder α)
    (e : AnimationEngine α (SpringAnimation α)) (target : α) (callback : Nat) :
    AnimationEngine α (SpringAnimation α) :=
  let e1 := if b.has_completion_callback then e.add_completion_callback callback else e
  e1.spring_to target b.spring

/-- Builder for keyframe animations, from src/core.rs (struct
KeyframeBuilder): keyframes are collected as (position, value, easing)
triples. -/
structure KeyframeBuilder (α : Type) where
  keyframes : List (ℚ × α × Option EasingFunction)
  duration : ℚ
  has_completion_callback : Bool

/-- KeyframeBuilder::keyframe from src/core.rs: the position is clamped to
the unit interval when the keyframe is recorded. -/
def KeyframeBuilder.keyframe {α : Type} (b : KeyframeBuilder α) (position : ℚ)
    (value : α) : KeyframeBuilder α :=
  { b with keyframes := b.keyframes ++ [(min (max position 0) 1, value, none)] }

/-- Iterated calls to handle_loop_completion: returns the final timing state,
how many times the completion callback was executed over the calls, and the
list of returned continue flags in call order. -/
def runLoopCompletions (t : AnimationTiming) : Nat → AnimationTiming × Nat × List Bool
  | 0 => (t, 0, [])
  | Nat.succ k =>
    match t.handle_loop_completion with
    | (cont, invoked, t') =>
      match runLoopCompletions t' k with
      | (tf, c, rs) => (tf, (if invoked then 1 else 0) + c, cont :: rs)

lemma AnimationTiming.handle_delay_pass (t : AnimationTiming) (dt : ℚ)
    (h : t.delay_elapsed = true ∨ t.delay = 0) :
    (t.handle_delay dt).1 = true ∧
    (t.handle_delay dt).2.loop_mode = t.loop_mode ∧
    (t.handle_delay dt).2.direction = t.direction ∧
    (t.handle_delay dt).2.current_loop = t.current_loop ∧
    (t.handle_delay dt).2.on_complete = t.on_complete := by
  unfold AnimationTiming.handle_delay
  rcases h with h | h
  · simp [h]
  · by_cases hd : t.delay_elapsed <;> simp [h, hd]

lemma AnimationTiming.handle_loop_completion_none (t : AnimationTiming)
    (h : t.loop_mode = LoopMode.None) :
    t.handle_loop_completion = (false, t.on_complete, t) := by
  unfold AnimationTiming.handle_loop_completion
  rw [h]


lemma AnimationTiming.handle_loop_completion_count_done (t : AnimationTiming)
    (n : Nat) (hmode : t.loop_mode = LoopMode.Count n)
    (h : n ≤ t.current_loop + 1) :
    t.handle_loop_completion =
      (false, t.on_complete, { t with current_loop := t.current_loop + 1 }) := by
  simp only [AnimationTiming.handle_loop_completion, hmode]
  rw [if_pos h]

lemma AnimationTiming.handle_loop_completion_count_continue (t : AnimationTiming)
    (n : Nat) (hmode : t.loop_mode = LoopMode.Count n)
    (h : t.current_loop + 1 < n) :
    t.handle_loop_completion.1 = true ∧
    t.handle_loop_completion.2.1 = false ∧
    t.handle_loop_completion.2.2.loop_mode = t.loop_mode ∧
    t.handle_loop_completion.2.2.current_loop = t.current_loop + 1 ∧
    t.handle_loop_completion.2.2.on_complete = t.on_complete := by
  simp only [AnimationTiming.handle_loop_completion, hmode]
  rw [if_neg (by omega)]
  simp [hmode]

lemma runLoopCompletions_succ (t : AnimationTiming) (k : Nat) (cont invoked : Bool)
    (t' : AnimationTiming) (h : t.handle_loop_completion = (cont, invoked, t')) :
    runLoopCompletions t (k + 1) =
      ((runLoopCompletions t' k).1,
       (if invoked then 1 else 0) + (runLoopCompletions t' k).2.1,
       cont :: (runLoopCompletions t' k).2.2) := by
  have hu : runLoopCompletions t (Nat.succ k) =
      match t.handle_loop_completion with
      | (cont, invoked, t') =>
        match runLoopCompletions t' k with
        | (tf, c, rs) => (tf, (if invoked then 1 else 0) + c, cont :: rs) := rfl
  rw [show k + 1 = Nat.succ k from rfl, hu, h]

lemma runLoopCompletions_count (n : Nat) :
    ∀ (k : Nat) (t : AnimationTiming),
      t.loop_mode = LoopMode.Count n → t.on_complete = true →
      (t.current_loop + k < n →
        (runLoopCompletions t k).2 = (0, List.replicate k true)) ∧
      (t.current_loop + k = n → 1 ≤ k →
        (runLoopCompletions t k).2 = (1, List.replicate (k - 1) true ++ [false])) := by
  intro k
  induction k with
  | zero =>
    intro t _ _
    exact ⟨fun _ => rfl, fun _ h => absurd h (by decide)⟩
  | succ j ih =>
    intro t hmode hcb
    rcases h1 : t.handle_loop_completion with ⟨cont, invoked, t'⟩
    constructor
    · intro hlt
      have hc := AnimationTiming.handle_loop_completion_count_continue t n hmode (by omega)
      rw [h1] at hc
      obtain ⟨hcont, hinv, hm, hcl, hoc⟩ := hc
      have hcont' : cont = true := hcont
      have hinv' : invoked = false := hinv
      have hm' : t'.loop_mode = LoopMode.Count n := by
        have h : t'.loop_mode = t.loop_mode := hm
        rw [h, hmode]
      have hoc' : t'.on_complete = true := by
        have h : t'.on_complete = t.on_complete := hoc
        rw [h, hcb]
      have hcl' : t'.current_loop = t.current_loop + 1 := hcl
      have ih' := (ih t' hm' hoc').1 (by rw [hcl']; omega)
      rw [runLoopCompletions_succ t j cont invoked t' h1]
      rcases hr : runLoopCompletions t' j with ⟨tf, c, rs⟩
      rw [hr] at ih'
      simp only [Prod.mk.injEq] at ih'
      obtain ⟨hcc, hrs⟩ := ih'
      subst hcont' hinv' hcc hrs
      simp [List.replicate_succ]
    · intro heq hpos
      by_cases hj : j = 0
      · subst hj
        have hd := AnimationTiming.handle_loop_completion_count_done t n hmode (by omega)
        rw [h1] at hd
        simp only [Prod.mk.injEq] at hd
        obtain ⟨hcont, hinv, _⟩ := hd
        rw [runLoopCompletions_succ t 0 cont invoked t' h1]
        subst hcont
        simp [hinv, hcb, runLoopCompletions]
      · have hc := AnimationTiming.handle_loop_completion_count_continue t n hmode (by omega)
        rw [h1] at hc
        obtain ⟨hcont, hinv, hm, hcl, hoc⟩ := hc
        have hcont' : cont = true := hcont
        have hinv' : invoked = false := hinv
        have hm' : t'.loop_mode = LoopMode.Count n := by
          have h : t'.loop_mode = t.loop_mode := hm
          rw [h, hmode]
        have hoc' : t'.on_complete = true := by
          have h : t'.on_complete = t.on_complete := hoc
          rw [h, hcb]
        have hcl' : t'.current_loop = t.current_loop + 1 := hcl
        have ih' := (ih t' hm' hoc').2 (by rw [hcl']; omega) (by omega)
        rw [runLoopCompletions_succ t j cont invoked t' h1]
        rcases hr : runLoopCompletions t' j with ⟨tf, c, rs⟩
        rw [hr] at ih'
        simp only [Prod.mk.injEq] at ih'
        obtain ⟨hcc, hrs⟩ := ih'
        subst hcont' hinv' hcc hrs
        have hrep : (true : Bool) :: (List.replicate (j - 1) true ++ [false]) =
            List.replicate (j + 1 - 1) true ++ [false] := by
          have hj1 : j + 1 - 1 = (j - 1) + 1 := by omega
          rw [hj1, List.replicate_succ]
          simp
        simp [hrep]

/-- The displacement the spring physics tick computes before integrating:
target minus current. -/
def springDisplacement {α : Type} (ops : Animatable α) (s : SpringAnimation α) : α :=
  ops.sub s.target s.current

/-- The velocity the spring physics tick arrives at after the semi-implicit
Euler step with the capped time delta. -/
def springNewVelocity {α : Type} (ops : Animatable α) (s : SpringAnimation α)
    (dt : ℚ) : α :=
  let dt' := min dt (8 / 125)
  ops.add s.velocity
    (ops.scale
      (ops.scale
        (ops.sub (ops.scale (springDisplacement ops s) s.spring.stiffness)
          (ops.scale s.velocity s.spring.damping))
        (1 / s.spring.mass))
      dt')

lemma update_physics_complete_iff {α : Type} (ops : Animatable α)
    (s : SpringAnimation α) (dt : ℚ) :
    (s.update_physics ops dt).2 = false ↔
      (ops.magnitude (springNewVelocity ops s dt) < ops.epsilon ∧
       ops.magnitude (springDisplacement ops s) < ops.epsilon) := by
  unfold SpringAnimation.update_physics springNewVelocity springDisplacement
  dsimp only
  split
  next hcond => simp only [one_div] at hcond; simp [hcond]
  next hcond => simp only [one_div] at hcond; simp [hcond]

lemma update_physics_complete_current {α : Type} (ops : Animatable α)
    (s : SpringAnimation α) (dt : ℚ) (h : (s.update_physics ops dt).2 = false) :
    (s.update_physics ops dt).1.current = s.target ∧
    (s.update_physics ops dt).1.initial = s.initial ∧
    (s.update_physics ops dt).1.target = s.target ∧
    (s.update_physics ops dt).1.timing = s.timing ∧
    (s.update_physics ops dt).1.is_active = s.is_active := by
  unfold SpringAnimation.update_physics at h ⊢
  dsimp only at h ⊢
  split at h
  next hcond =>
    rw [if_pos hcond]
    exact ⟨rfl, rfl, rfl, rfl, rfl⟩
  next hcond =>
    simp at h

lemma update_physics_timing_irrelevant {α : Type} (ops : Animatable α)
    (s : SpringAnimation α) (dt : ℚ) (t : AnimationTiming) :
    springNewVelocity ops { s with timing := t } dt = springNewVelocity ops s dt ∧
    springDisplacement ops { s with timing := t } = springDisplacement ops s := by
  unfold springNewVelocity springDisplacement
  exact ⟨rfl, rfl⟩

/-- C6: for every n at least 1, a timing state with LoopMode.Count n and loop
counter 0 invokes its installed completion callback exactly once over a run
of handle_loop_completion calls, namely on the nth call, which returns false,
while every earlier call returns true (continue) and invokes nothing; with
LoopMode.None every handle_loop_completion call invokes the callback and
returns false, leaving the state unchanged. -/
theorem count_loop_callback_fires_once :
    (∀ (n : Nat), 1 ≤ n → ∀ (t : AnimationTiming),
      t.loop_mode = LoopMode.Count n → t.current_loop = 0 → t.on_complete = true →
      (∀ (k : Nat), k < n →
        (runLoopCompletions t k).2 = (0, List.replicate k true)) ∧
      (runLoopCompletions t n).2 = (1, List.replicate (n - 1) true ++ [false])) ∧
    (∀ (t : AnimationTiming), t.loop_mode = LoopMode.None →
      t.handle_loop_completion = (false, t.on_complete, t)) := by
  constructor
  · intro n hn t hmode hzero hcb
    constructor
    · intro k hk
      exact (runLoopCompletions_count n k t hmode hcb).1 (by rw [hzero]; omega)
    · exact (runLoopCompletions_count n n t hmode hcb).2 (by rw [hzero]; omega) hn
  · intro t h
    exact AnimationTiming.handle_loop_completion_none t h

/-- A concrete timing state looping three times with an installed callback,
used to witness the Count loop claim. -/
def countThreeTiming : AnimationTiming :=
  { AnimationTiming.default with loop_mode := LoopMode.Count 3, on_complete := true }

/-- Witness for the Count loop claim at n = 3: two calls invoke nothing and
continue, the third call invokes the callback once and stops. -/
theorem count_loop_callback_fires_once_witness :
    (runLoopCompletions countThreeTiming 2).2 = (0, List.replicate 2 true) ∧
    (runLoopCompletions countThreeTiming 3).2 = (1, List.replicate 2 true ++ [false]) ∧
    countThreeTiming.handle_loop_completion.1 = true ∧
    countThreeTiming.handle_loop_completion.2.1 = false := by
  have h := count_loop_callback_fires_once
  have h3 := h.1 3 (by decide) countThreeTiming rfl rfl rfl
  exact ⟨h3.1 2 (by decide), h3.2, by decide, by decide⟩

/-- The step function a value cell uses for the spring animations installed
by spring_to and animate_to, over the rational model of f32. -/
def springStep : SpringAnimation ℚ → ℚ → AnimationState × ℚ × ℚ × SpringAnimation ℚ :=
  fun s dt => SpringAnimation.update f32Animatable s dt

/-- A value cell over f32 holding value 0 with one queued completion callback
(identifier 0) and a default spring animation toward target 0, which
completes on its first tick. -/
def callbackEngine : AnimationEngine ℚ (SpringAnimation ℚ) :=
  ((AnimationEngine.new f32Animatable 0).add_completion_callback 0).spring_to 0 Spring.default

/-- C1: the claim fails on the code. AnimationEngine::update never executes
any queued completion callback: on any update the callback queue is left
untouched and no callback runs, and in particular on the tick where the
installed spring animation reports Completed the engine clears itself
(is_active false, animation dropped) while the queued callback stays queued
and is never invoked. -/
theorem engine_completion_never_runs_callbacks :
    (∀ (α σ : Type) (ops : Animatable α)
      (step : σ → ℚ → AnimationState × α × α × σ)
      (e : AnimationEngine α σ) (dt : ℚ),
      (AnimationEngine.update ops step e dt).2.1.callbacks = e.callbacks ∧
      (AnimationEngine.update ops step e dt).2.2 = []) ∧
    ((AnimationEngine.update f32Animatable springStep callbackEngine (1/60)).2.1.is_active
        = false ∧
     (AnimationEngine.update f32Animatable springStep callbackEngine
        (1/60)).2.1.animation.isNone = true ∧
     (AnimationEngine.update f32Animatable springStep callbackEngine
        (1/60)).2.1.callbacks = [0] ∧
     (AnimationEngine.update f32Animatable springStep callbackEngine (1/60)).2.2 = []) := by
  constructor
  · intro α σ ops step e dt
    unfold AnimationEngine.update
    by_cases h : e.is_active = false
    · simp [h]
    · rw [if_neg h]
      cases hanim : e.animation with
      | none => exact ⟨rfl, rfl⟩
      | some a =>
        dsimp only
        rcases hs : step a dt with ⟨st, v, w, a'⟩
        cases st <;> exact ⟨rfl, rfl⟩
  · refine ⟨?_, ?_, ?_, ?_⟩ <;>
      norm_num [AnimationEngine.update, springStep, SpringAnimation.update,
        SpringAnimation.update_physics, AnimationTiming.handle_delay,
        AnimationTiming.handle_loop_completion, callbackEngine, AnimationEngine.new,
        AnimationEngine.add_completion_callback, AnimationEngine.spring_to,
        Spring.create_animation, Spring.default, AnimationTiming.default, f32Animatable]

/-- A value cell engine started through the public fluent surface with
spring().stiffness(-5).animate_to(1): the builder stores the raw stiffness. -/
def negativeStiffnessEngine : AnimationEngine ℚ (SpringAnimation ℚ) :=
  ((SpringBuilder.new ℚ).stiffness (-5)).animate_to (AnimationEngine.new f32Animatable 0) 1 0

/-- C9 counterexample: the claim fails on the code. SpringBuilder::stiffness
on the MotionValue fluent surface stores -5 unclamped, animate_to installs
that spring on the engine, and the next engine update steps the spring
animation with its stiffness still -5, so an animation is stepped with
negative stiffness. -/
theorem springbuilder_unclamped_counterexample :
    ((SpringBuilder.new ℚ).stiffness (-5)).spring.stiffness = -5 ∧
    ((SpringBuilder.new ℚ).stiffness (-5)).spring.stiffness < 0 ∧
    negativeStiffnessEngine.is_active = true ∧
    negativeStiffnessEngine.animation.map (fun a => a.spring.stiffness) = some (-5) ∧
    (AnimationEngine.update f32Animatable springStep negativeStiffnessEngine (1/60)).1
      = true ∧
    (AnimationEngine.update f32Animatable springStep negativeStiffnessEngine
      (1/60)).2.1.animation.map (fun a => a.spring.stiffness) = some (-5) := by
  refine ⟨rfl, by norm_num [SpringBuilder.new, SpringBuilder.stiffness, Spring.default],
    rfl, rfl, ?_, ?_⟩ <;>
    norm_num [AnimationEngine.update, springStep, SpringAnimation.update,
      SpringAnimation.update_physics, AnimationTiming.handle_delay,
      AnimationTiming.handle_loop_completion, negativeStiffnessEngine,
      AnimationEngine.new, AnimationEngine.add_completion_callback,
      AnimationEngine.spring_to, SpringBuilder.new, SpringBuilder.stiffness,
      SpringBuilder.animate_to, Spring.create_animation, Spring.default,
      AnimationTiming.default, f32Animatable]

/-- C9 amended: the Spring configuration methods clamp at configuration time
(stiffness to at least 0.1, damping to at least 0, mass to at least 0.1), and
KeyframeBuilder::keyframe clamps positions into the unit interval; but
SpringBuilder's stiffness, damping and mass on the MotionValue fluent surface
store the raw values unclamped, so a spring animation can be stepped with
out-of-range parameters. -/
theorem config_clamping_amended :
    (∀ (sp : Spring) (x : ℚ),
      (1 / 10 : ℚ) ≤ (sp.set_stiffness x).stiffness ∧
      (0 : ℚ) ≤ (sp.set_damping x).damping ∧
      (1 / 10 : ℚ) ≤ (sp.set_mass x).mass) ∧
    (∀ (α : Type) (b : KeyframeBuilder α) (p : ℚ) (v : α),
      (b.keyframe p v).keyframes.getLast? = some (min (max p 0) 1, v, none) ∧
      (0 : ℚ) ≤ min (max p 0) 1 ∧ min (max p 0) 1 ≤ 1) ∧
    (∀ (b : SpringBuilder ℚ) (x : ℚ),
      (b.stiffness x).spring.stiffness = x ∧
      (b.damping x).spring.damping = x ∧
      (b.mass x).spring.mass = x) := by
  refine ⟨?_, ?_, ?_⟩
  · intro sp x
    exact ⟨le_max_right _ _, le_max_right _ _, le_max_right _ _⟩
  · intro α b p v
    refine ⟨?_, le_min (le_max_right _ _) zero_le_one, min_le_right _ _⟩
    simp [KeyframeBuilder.keyframe]
  · intro b x
    exact ⟨rfl, rfl, rfl⟩

lemma SpringAnimation.update_active_pass {α : Type} (ops : Animatable α)
    (s : SpringAnimation α) (dt : ℚ)
    (hact : s.is_active = true)
    (hdel : s.timing.delay_elapsed = true ∨ s.timing.delay = 0) :
    SpringAnimation.update ops s dt =
      (match ({ s with timing := (s.timing.handle_delay dt).2 } :
          SpringAnimation α).update_physics ops dt with
       | (s2, true) => (AnimationState.Active, s2.current, s2.velocity, s2)
       | (s2, false) =>
         match s2.timing.handle_loop_completion with
         | (true, _, t2) =>
             (AnimationState.Active, s2.initial, ops.zero,
               { s2 with timing := t2, current := s2.initial, velocity := ops.zero })
         | (false, _, t2) =>
             (AnimationState.Completed, s2.current, ops.zero,
               { s2 with timing := t2, is_active := false })) := by
  unfold SpringAnimation.update
  rw [if_neg (by rw [hact]; simp)]
  rcases hd : s.timing.handle_delay dt with ⟨b, t'⟩
  have hb : b = true := by
    have h := (AnimationTiming.handle_delay_pass s.timing dt hdel).1
    rw [hd] at h
    exact h
  subst hb
  rfl

/-- C2: a live spring animation with default-style timing (delay already
passed or zero, no looping) reports Completed on a tick exactly when both the
magnitude of the tick's post-integration velocity and the magnitude of the
tick's displacement are below the type's epsilon, and on that completing tick
the reported value and the stored current value are snapped exactly to the
target. -/
theorem spring_completes_iff_velocity_and_displacement_small (α : Type)
    (ops : Animatable α) (s : SpringAnimation α) (dt : ℚ)
    (hact : s.is_active = true)
    (hdel : s.timing.delay_elapsed = true ∨ s.timing.delay = 0)
    (hloop : s.timing.loop_mode = LoopMode.None) :
    ((SpringAnimation.update ops s dt).1 = AnimationState.Completed ↔
      (ops.magnitude (springNewVelocity ops s dt) < ops.epsilon ∧
       ops.magnitude (springDisplacement ops s) < ops.epsilon)) ∧
    ((SpringAnimation.update ops s dt).1 = AnimationState.Completed →
      (SpringAnimation.update ops s dt).2.1 = s.target ∧
      (SpringAnimation.update ops s dt).2.2.2.current = s.target) := by
  rw [SpringAnimation.update_active_pass ops s dt hact hdel]
  have htinv := update_physics_timing_irrelevant ops s dt (s.timing.handle_delay dt).2
  have hiff := update_physics_complete_iff ops
      ({ s with timing := (s.timing.handle_delay dt).2 }) dt
  rw [htinv.1, htinv.2] at hiff
  rcases hp : ({ s with timing := (s.timing.handle_delay dt).2 } :
      SpringAnimation α).update_physics ops dt with ⟨s2, active⟩
  rw [hp] at hiff
  cases active with
  | false =>
    have hcond := hiff.mp rfl
    have hprops := update_physics_complete_current ops
        ({ s with timing := (s.timing.handle_delay dt).2 }) dt (by rw [hp])
    rw [hp] at hprops
    have hcur : s2.current = s.target := hprops.1
    have htim : s2.timing = (s.timing.handle_delay dt).2 := hprops.2.2.2.1
    have hnone : s2.timing.loop_mode = LoopMode.None := by
      rw [htim]
      have h := (AnimationTiming.handle_delay_pass s.timing dt hdel).2.1
      rw [h, hloop]
    dsimp only
    rw [AnimationTiming.handle_loop_completion_none s2.timing hnone]
    exact ⟨⟨fun _ => hcond, fun _ => rfl⟩, fun _ => ⟨hcur, hcur⟩⟩
  | true =>
    have hncond : ¬ (ops.magnitude (springNewVelocity ops s dt) < ops.epsilon ∧
        ops.magnitude (springDisplacement ops s) < ops.epsilon) := by
      intro hcond
      have h := hiff.mpr hcond
      simp at h
    dsimp only
    refine ⟨⟨fun h => absurd h (by decide), fun hcond => absurd hcond hncond⟩,
      fun h => absurd h (by decide)⟩

/-- Witness for the spring completion claim: a default spring already at its
target completes on the first tick and reports exactly the target value. -/
theorem spring_completes_iff_witness :
    (SpringAnimation.update f32Animatable
        (Spring.default.create_animation (0:ℚ) 0 0) (1/60)).1
      = AnimationState.Completed ∧
    (SpringAnimation.update f32Animatable
        (Spring.default.create_animation (0:ℚ) 0 0) (1/60)).2.1 = 0 := by
  have h := spring_completes_iff_velocity_and_displacement_small ℚ f32Animatable
    (Spring.default.create_animation (0:ℚ) 0 0) (1/60) rfl (Or.inr rfl) rfl
  have hcond : f32Animatable.magnitude
      (springNewVelocity f32Animatable
        (Spring.default.create_animation (0:ℚ) 0 0) (1/60)) < f32Animatable.epsilon ∧
      f32Animatable.magnitude
        (springDisplacement f32Animatable
          (Spring.default.create_animation (0:ℚ) 0 0)) < f32Animatable.epsilon := by
    norm_num [springNewVelocity, springDisplacement, Spring.create_animation,
      Spring.default, f32Animatable]
  have hc := h.1.mpr hcond
  exact ⟨hc, (h.2 hc).1⟩

lemma AnimationTiming.handle_delay_preserves (t : AnimationTiming) (dt : ℚ) :
    (t.handle_delay dt).2.loop_mode = t.loop_mode ∧
    (t.handle_delay dt).2.direction = t.direction ∧
    (t.handle_delay dt).2.current_loop = t.current_loop ∧
    (t.handle_delay dt).2.on_complete = t.on_complete := by
  unfold AnimationTiming.handle_delay
  by_cases h1 : t.delay_elapsed
  · simp [h1]
  · by_cases h2 : t.delay = 0
    · simp [h1, h2]
    · by_cases h3 : t.delay ≤ dt <;> simp [h1, h2, h3]

lemma update_physics_preserves {α : Type} (ops : Animatable α)
    (s : SpringAnimation α) (dt : ℚ) :
    (s.update_physics ops dt).1.timing = s.timing ∧
    (s.update_physics ops dt).1.initial = s.initial ∧
    (s.update_physics ops dt).1.target = s.target ∧
    (s.update_physics ops dt).1.is_active = s.is_active := by
  unfold SpringAnimation.update_physics
  dsimp only
  split
  · exact ⟨rfl, rfl, rfl, rfl⟩
  · exact ⟨rfl, rfl, rfl, rfl⟩

lemma spring_update_completes {α : Type} (ops : Animatable α)
    (s : SpringAnimation α) (dt : ℚ)
    (hact : s.is_active = true)
    (hdel : s.timing.delay_elapsed = true ∨ s.timing.delay = 0)
    (hloop : s.timing.loop_mode = LoopMode.None)
    (hcond : ops.magnitude (springNewVelocity ops s dt) < ops.epsilon ∧
      ops.magnitude (springDisplacement ops s) < ops.epsilon) :
    (SpringAnimation.update ops s dt).1 = AnimationState.Completed ∧
    (SpringAnimation.update ops s dt).2.1 = s.target ∧
    (SpringAnimation.update ops s dt).2.2.2.is_active = false ∧
    (SpringAnimation.update ops s dt).2.2.2.current = s.target := by
  rw [SpringAnimation.update_active_pass ops s dt hact hdel]
  have htinv := update_physics_timing_irrelevant ops s dt (s.timing.handle_delay dt).2
  have hiff := update_physics_complete_iff ops
      ({ s with timing := (s.timing.handle_delay dt).2 }) dt
  rw [htinv.1, htinv.2] at hiff
  have hflag := hiff.mpr hcond
  rcases hp : ({ s with timing := (s.timing.handle_delay dt).2 } :
      SpringAnimation α).update_physics ops dt with ⟨s2, active⟩
  rw [hp] at hflag
  have hactive : active = false := hflag
  subst hactive
  have hprops := update_physics_complete_current ops
      ({ s with timing := (s.timing.handle_delay dt).2 }) dt (by rw [hp])
  rw [hp] at hprops
  have hcur : s2.current = s.target := hprops.1
  have htim : s2.timing = (s.timing.handle_delay dt).2 := hprops.2.2.2.1
  have hnone : s2.timing.loop_mode = LoopMode.None := by
    rw [htim]
    have h := (AnimationTiming.handle_delay_pass s.timing dt hdel).2.1
    rw [h, hloop]
  dsimp only
  rw [AnimationTiming.handle_loop_completion_none s2.timing hnone]
  exact ⟨rfl, hcur, rfl, hcur⟩

/-- C10: Spring::create_animation always installs the default timing (loop
mode None, zero delay, no installed callback); updating a spring whose loop
mode is None preserves that loop mode; and when such a spring's physics tick
satisfies the completion test, update reports Completed and deactivates with
the value snapped to the target, never taking the loop-restart branch that
resets the current value to the initial value and stays active. -/
theorem spring_cell_default_timing_no_loop_restart :
    (∀ (α : Type) (sp : Spring) (i t v : α),
      (sp.create_animation i t v).timing = AnimationTiming.default ∧
      (sp.create_animation i t v).timing.loop_mode = LoopMode.None ∧
      (sp.create_animation i t v).timing.delay = 0 ∧
      (sp.create_animation i t v).timing.on_complete = false) ∧
    (∀ (α : Type) (e : AnimationEngine α (SpringAnimation α)) (target : α) (sp : Spring),
      (e.spring_to target sp).animation.map (fun a => a.timing)
        = some AnimationTiming.default) ∧
    (∀ (α : Type) (ops : Animatable α) (s : SpringAnimation α) (dt : ℚ),
      s.timing.loop_mode = LoopMode.None →
      (SpringAnimation.update ops s dt).2.2.2.timing.loop_mode = LoopMode.None) ∧
    (∀ (α : Type) (ops : Animatable α) (s : SpringAnimation α) (dt : ℚ),
      s.timing.loop_mode = LoopMode.None →
      s.is_active = true →
      (s.timing.delay_elapsed = true ∨ s.timing.delay = 0) →
      (ops.magnitude (springNewVelocity ops s dt) < ops.epsilon ∧
       ops.magnitude (springDisplacement ops s) < ops.epsilon) →
      (SpringAnimation.update ops s dt).1 = AnimationState.Completed ∧
      (SpringAnimation.update ops s dt).2.2.2.is_active = false ∧
      (SpringAnimation.update ops s dt).2.2.2.current = s.target) := by
  refine ⟨fun α sp i t v => ⟨rfl, rfl, rfl, rfl⟩, fun α e target sp => rfl, ?_, ?_⟩
  · intro α ops s dt hloop
    unfold SpringAnimation.update
    by_cases hact : s.is_active = false
    · rw [if_pos hact]
      exact hloop
    · rw [if_neg hact]
      rcases hd : s.timing.handle_delay dt with ⟨b, t'⟩
      have ht' : t'.loop_mode = LoopMode.None := by
        have h := (AnimationTiming.handle_delay_preserves s.timing dt).1
        rw [hd] at h
        rw [show t'.loop_mode = s.timing.loop_mode from h, hloop]
      cases b with
      | false => exact ht'
      | true =>
        dsimp only
        rcases hp : ({ s with timing := t' } : SpringAnimation α).update_physics ops dt
          with ⟨s2, active⟩
        have hs2tim : s2.timing = t' := by
          have h := (update_physics_preserves ops { s with timing := t' } dt).1
          rw [hp] at h
          exact h
        have hs2 : s2.timing.loop_mode = LoopMode.None := by rw [hs2tim]; exact ht'
        cases active with
        | true => exact hs2
        | false =>
          dsimp only
          rw [AnimationTiming.handle_loop_completion_none s2.timing hs2]
          exact hs2
  · intro α ops s dt hloop hact hdel hcond
    exact ⟨(spring_update_completes ops s dt hact hdel hloop hcond).1,
      (spring_update_completes ops s dt hact hdel hloop hcond).2.2.1,
      (spring_update_completes ops s dt hact hdel hloop hcond).2.2.2⟩

/-- Witness for the spring timing claim: a default spring keeps loop mode
None across a tick, and a default spring already at its target goes
Completed and inactive on its first tick rather than restarting a loop. -/
theorem spring_cell_default_timing_no_loop_restart_witness :
    (SpringAnimation.update f32Animatable
        (Spring.default.create_animation (0:ℚ) 5 0) (1/60)).2.2.2.timing.loop_mode
      = LoopMode.None ∧
    (SpringAnimation.update f32Animatable
        (Spring.default.create_animation (0:ℚ) 0 0) (1/60)).1
      = AnimationState.Completed ∧
    (SpringAnimation.update f32Animatable
        (Spring.default.create_animation (0:ℚ) 0 0) (1/60)).2.2.2.is_active = false := by
  have h := spring_cell_default_timing_no_loop_restart
  have h4 := h.2.2.2 ℚ f32Animatable (Spring.default.create_animation (0:ℚ) 0 0)
    (1/60) rfl rfl (Or.inr rfl)
    (by norm_num [springNewVelocity, springDisplacement, Spring.create_animation,
      Spring.default, f32Animatable])
  exact ⟨h.2.2.1 ℚ f32Animatable (Spring.default.create_animation (0:ℚ) 5 0) (1/60) rfl,
    h4.1, h4.2.1⟩

lemma AnimationEngine.update_active {α σ : Type} (ops : Animatable α)
    (step : σ → ℚ → AnimationState × α × α × σ) (e : AnimationEngine α σ)
    (a : σ) (dt : ℚ) (hact : e.is_active = true) (hanim : e.animation = some a)
    (hstate : (step a dt).1 = AnimationState.Active) :
    AnimationEngine.update ops step e dt =
      (true,
       { e with
         current := (step a dt).2.1
         velocity := (step a dt).2.2.1
         animation := some (step a dt).2.2.2 },
       []) := by
  unfold AnimationEngine.update
  rw [if_neg (by rw [hact]; simp), hanim]
  dsimp only
  rcases hs : step a dt with ⟨st, v, w, a'⟩
  have hst : st = AnimationState.Active := by rw [hs] at hstate; exact hstate
  subst hst
  rfl

/-- C3: when a value cell's spring animation has been stepped to a state with
current value v and current velocity w (an Active tick storing v and w into
the engine), starting a new spring animation toward a new target through
spring_to creates an animation seeded with exactly that value v as its
initial and current value and exactly that velocity w as its initial
velocity, never resetting the velocity to zero. -/
theorem spring_redirect_carries_velocity (α : Type) (ops : Animatable α)
    (e : AnimationEngine α (SpringAnimation α)) (a : SpringAnimation α) (dt : ℚ)
    (target : α) (sp : Spring)
    (hact : e.is_active = true) (hanim : e.animation = some a)
    (hstate : (SpringAnimation.update ops a dt).1 = AnimationState.Active) :
    ∃ a' : SpringAnimation α,
      (((AnimationEngine.update ops (fun s d => SpringAnimation.update ops s d)
            e dt).2.1).spring_to target sp).animation = some a' ∧
      a'.initial = (SpringAnimation.update ops a dt).2.1 ∧
      a'.current = (SpringAnimation.update ops a dt).2.1 ∧
      a'.velocity = (SpringAnimation.update ops a dt).2.2.1 ∧
      a'.target = target ∧
      (AnimationEngine.update ops (fun s d => SpringAnimation.update ops s d)
          e dt).2.1.current = (SpringAnimation.update ops a dt).2.1 ∧
      (AnimationEngine.update ops (fun s d => SpringAnimation.update ops s d)
          e dt).2.1.velocity = (SpringAnimation.update ops a dt).2.2.1 := by
  rw [AnimationEngine.update_active ops (fun s d => SpringAnimation.update ops s d)
    e a dt hact hanim hstate]
  exact ⟨sp.create_animation (SpringAnimation.update ops a dt).2.1 target
      (SpringAnimation.update ops a dt).2.2.1, rfl, rfl, rfl, rfl, rfl, rfl, rfl⟩

/-- A value cell engine with a default spring from 0 toward 1 just installed,
used to witness the velocity carry-over claim. -/
def redirectEngine : AnimationEngine ℚ (SpringAnimation ℚ) :=
  (AnimationEngine.new f32Animatable 0).spring_to 1 Spring.default

/-- Witness for the velocity carry-over claim: after one tick of 0.01s the
spring from 0 toward 1 moves with velocity 1; redirecting to target 2 seeds
the new animation with current value 0.01 and velocity 1, not zero. -/
theorem spring_redirect_carries_velocity_witness :
    ∃ a' : SpringAnimation ℚ,
      (((AnimationEngine.update f32Animatable
            (fun s d => SpringAnimation.update f32Animatable s d)
            redirectEngine (1/100)).2.1).spring_to 2 Spring.default).animation = some a' ∧
      a'.current = 1/100 ∧ a'.velocity = 1 := by
  have hstate : (SpringAnimation.update f32Animatable
      (Spring.default.create_animation (0:ℚ) 1 0) (1/100)).1 = AnimationState.Active := by
    norm_num [SpringAnimation.update, SpringAnimation.update_physics,
      AnimationTiming.handle_delay, Spring.create_animation, Spring.default,
      AnimationTiming.default, f32Animatable]
  have h := spring_redirect_carries_velocity ℚ f32Animatable redirectEngine
    (Spring.default.create_animation (0:ℚ) 1 0) (1/100) 2 Spring.default rfl rfl hstate
  obtain ⟨a', h1, _, h3, h4, _⟩ := h
  refine ⟨a', h1, ?_, ?_⟩
  · rw [h3]
    norm_num [SpringAnimation.update, SpringAnimation.update_physics,
      AnimationTiming.handle_delay, Spring.create_animation, Spring.default,
      AnimationTiming.default, f32Animatable]
  · rw [h4]
    norm_num [SpringAnimation.update, SpringAnimation.update_physics,
      AnimationTiming.handle_delay, Spring.create_animation, Spring.default,
      AnimationTiming.default, f32Animatable]

/-- The normalized forward progress a tween tick computes: elapsed plus dt
over duration, clamped to the unit interval, taken as 1 when the duration is
zero. -/
def tweenForwardProgress {α : Type} (a : TweenAnimation α) (dt : ℚ) : ℚ :=
  if 0 < a.tween.duration then min (max ((a.elapsed + dt) / a.tween.duration) 0) 1 else 1

/-- The progress a tween tick eases: the forward progress, flipped to
1 - progress when playing in reverse. -/
def tweenProgress {α : Type} (a : TweenAnimation α) (dt : ℚ) : ℚ :=
  if a.timing.is_reverse then 1 - tweenForwardProgress a dt else tweenForwardProgress a dt

lemma AnimationTiming.handle_delay_is_reverse (t : AnimationTiming) (dt : ℚ) :
    (t.handle_delay dt).2.is_reverse = t.is_reverse := by
  unfold AnimationTiming.is_reverse
  rw [(AnimationTiming.handle_delay_preserves t dt).2.1,
    (AnimationTiming.handle_delay_preserves t dt).2.2.1]

/-- C7: after the delay has passed, a tween tick reports
initial.interpolate(target, easing(progress)) where progress is the clamped
elapsed-over-duration ratio (1 when the duration is zero, flipped to
1 - progress in reverse); on the completing tick (forward progress at least
1, reverse progress at most 0) the reported value is snapped exactly to the
target when playing forward and to the initial value in reverse. -/
theorem tween_value_formula (α : Type) (ops : Animatable α) (a : TweenAnimation α)
    (dt : ℚ) (hact : a.is_active = true)
    (hdel : a.timing.delay_elapsed = true ∨ a.timing.delay = 0) :
    (a.timing.is_reverse = false → ¬ (1 ≤ tweenProgress a dt) →
      (TweenAnimation.update ops a dt).2.1
        = ops.interpolate a.initial a.target (a.tween.easing (tweenProgress a dt) 0 1 1)) ∧
    (a.timing.is_reverse = true → ¬ (tweenProgress a dt ≤ 0) →
      (TweenAnimation.update ops a dt).2.1
        = ops.interpolate a.initial a.target (a.tween.easing (tweenProgress a dt) 0 1 1)) ∧
    (a.timing.is_reverse = false → 1 ≤ tweenProgress a dt →
      (TweenAnimation.update ops a dt).2.1 = a.target) ∧
    (a.timing.is_reverse = true → tweenProgress a dt ≤ 0 →
      (TweenAnimation.update ops a dt).2.1 = a.initial) := by
  unfold TweenAnimation.update
  rw [if_neg (by rw [hact]; simp)]
  rcases hd : a.timing.handle_delay dt with ⟨b, t'⟩
  have hb : b = true := by
    have h := (AnimationTiming.handle_delay_pass a.timing dt hdel).1
    rw [hd] at h
    exact h
  subst hb
  dsimp only
  have hrev : t'.is_reverse = a.timing.is_reverse := by
    have h := AnimationTiming.handle_delay_is_reverse a.timing dt
    rw [hd] at h
    exact h
  rw [hrev]
  unfold tweenProgress tweenForwardProgress
  by_cases hr : a.timing.is_reverse
  · simp only [hr, if_true, if_pos]
    refine ⟨fun hfalse _ => absurd hfalse (by simp [hr]), ?_, fun hfalse _ => absurd hfalse (by simp [hr]), ?_⟩
    · intro _ hnc
      rw [if_neg (by simpa using hnc)]
    · intro _ hc
      rw [if_pos (by simpa using hc)]
      rcases t'.handle_loop_completion with ⟨c, i, t2⟩
      cases c <;> rfl
  · have hr' : a.timing.is_reverse = false := by simpa using hr
    simp only [hr', if_false]
    refine ⟨?_, fun htrue _ => absurd htrue (by simp [hr']), ?_, fun htrue _ => absurd htrue (by simp [hr'])⟩
    · intro _ hnc
      rw [if_neg (by simpa using hnc)]
    · intro _ hc
      rw [if_pos (by simpa using hc)]
      rcases t'.handle_loop_completion with ⟨c, i, t2⟩
      cases c <;> rfl

/-- A concrete linear tween from 0 toward 10 over one second, used to witness
the tween formula claim. -/
def linearTween : TweenAnimation ℚ :=
  Tween.create_animation { duration := 1, easing := linearEaseInOut } 0 10

/-- Witness for the tween formula claim: half a second in, the linear tween
from 0 to 10 reports 5; a two-second tick completes it and snaps the value
exactly to the target 10. -/
theorem tween_value_formula_witness :
    (TweenAnimation.update f32Animatable linearTween (1/2)).2.1 = 5 ∧
    (TweenAnimation.update f32Animatable linearTween 2).2.1 = 10 := by
  have h1 := tween_value_formula ℚ f32Animatable linearTween (1/2) rfl (Or.inr rfl)
  have h2 := tween_value_formula ℚ f32Animatable linearTween 2 rfl (Or.inr rfl)
  constructor
  · have hv := h1.1 rfl (by
      norm_num [tweenProgress, tweenForwardProgress, linearTween,
        Tween.create_animation, TweenAnimation.new, AnimationTiming.default,
        AnimationTiming.is_reverse])
    rw [hv]
    norm_num [tweenProgress, tweenForwardProgress, linearTween, linearEaseInOut,
      Tween.create_animation, TweenAnimation.new, AnimationTiming.default,
      AnimationTiming.is_reverse, f32Animatable]
  · exact h2.2.2.1 rfl (by
      norm_num [tweenProgress, tweenForwardProgress, linearTween,
        Tween.create_animation, TweenAnimation.new, AnimationTiming.default,
        AnimationTiming.is_reverse])

/-- What one group-update tick does to a single member: an already-completed
member is left untouched, any other member is stepped and its completed flag
set exactly when the step reported Completed. -/
def tickGroupItem {α σ : Type} (step : σ → ℚ → AnimationState × α × α × σ)
    (dt : ℚ) (it : GroupItem σ) : GroupItem σ :=
  if it.completed then it
  else { animation := (step it.animation dt).2.2.2,
         completed := (step it.animation dt).1 == AnimationState.Completed }

lemma updateItems_spec {α σ : Type} (ops : Animatable α)
    (step : σ → ℚ → AnimationState × α × α × σ) (dt : ℚ) :
    ∀ (items : List (GroupItem σ)) (accV accW : α) (allC : Bool),
      AnimationGroup.updateItems ops step dt items accV accW allC =
        (items.map (tickGroupItem step dt),
         List.foldl ops.add accV
           ((items.filter (fun it => !it.completed)).map
             (fun it => (step it.animation dt).2.1)),
         List.foldl ops.add accW
           ((items.filter (fun it => !it.completed)).map
             (fun it => (step it.animation dt).2.2.1)),
         allC && (items.map (tickGroupItem step dt)).all (fun it => it.completed)) := by
  intro items
  induction items with
  | nil =>
    intro accV accW allC
    simp [AnimationGroup.updateItems]
  | cons it rest ih =>
    intro accV accW allC
    by_cases hc : it.completed
    · have ht : tickGroupItem step dt it = it := by simp [tickGroupItem, hc]
      simp only [AnimationGroup.updateItems, hc, if_pos, ih]
      simp [ht, hc, Bool.and_assoc]
    · rcases hs : step it.animation dt with ⟨st, v, w, a'⟩
      simp only [AnimationGroup.updateItems, hc, ih, hs]
      simp [tickGroupItem, hc, hs, Bool.and_assoc]

/-- C4: a started, nonempty group tick updates exactly the not-yet-completed
members (completed members are left untouched, each updated member's
completed flag records whether its step reported Completed), reports as its
value the repeated-add sum, from zero, of the updated members' reported
values, and reports Completed exactly when after the tick every member has
completed; an empty group reports Completed with the zero value. -/
theorem group_sums_members_and_completes_when_all_do (α σ : Type)
    (ops : Animatable α) (step : σ → ℚ → AnimationState × α × α × σ) :
    (∀ (g : AnimationGroup α σ) (dt : ℚ), g.animations = [] →
      AnimationGroup.update ops step g dt
        = (AnimationState.Completed, ops.zero, ops.zero, g, false)) ∧
    (∀ (g : AnimationGroup α σ) (dt : ℚ), g.is_active = true → g.animations ≠ [] →
      (AnimationGroup.update ops step g dt).2.2.2.1.animations
        = g.animations.map (tickGroupItem step dt) ∧
      (AnimationGroup.update ops step g dt).2.1
        = List.foldl ops.add ops.zero
            ((g.animations.filter (fun it => !it.completed)).map
              (fun it => (step it.animation dt).2.1)) ∧
      (AnimationGroup.update ops step g dt).2.2.1
        = List.foldl ops.add ops.zero
            ((g.animations.filter (fun it => !it.completed)).map
              (fun it => (step it.animation dt).2.2.1)) ∧
      ((AnimationGroup.update ops step g dt).1 = AnimationState.Completed ↔
        (g.animations.map (tickGroupItem step dt)).all (fun it => it.completed) = true)) := by
  constructor
  · intro g dt hempty
    unfold AnimationGroup.update
    rw [if_pos (by rw [hempty]; simp)]
  · intro g dt hact hne
    unfold AnimationGroup.update
    rw [if_neg (by rw [hact]; simp [List.isEmpty_iff, hne])]
    rw [updateItems_spec ops step dt g.animations ops.zero ops.zero true]
    dsimp only
    rw [Bool.true_and]
    by_cases hall : (g.animations.map (tickGroupItem step dt)).all
        (fun it => it.completed) = true
    · rw [if_pos hall]
      exact ⟨rfl, rfl, rfl, by simp [hall]⟩
    · rw [if_neg hall]
      refine ⟨rfl, rfl, rfl, ?_⟩
      constructor
      · intro h
        simp at h
      · intro h
        exact absurd h hall

/-- A toy sub-animation step for group witnesses: always Active with value 2
and velocity 0. -/
def unitStep : Unit → ℚ → AnimationState × ℚ × ℚ × Unit :=
  fun _ _ => (AnimationState.Active, 2, 0, ())

/-- An empty animation group over f32. -/
def emptyGroup : AnimationGroup ℚ Unit :=
  { animations := [], is_active := false, on_complete := false }

/-- A started group with one live member and one already-completed member. -/
def twoMemberGroup : AnimationGroup ℚ Unit :=
  { animations := [{ animation := (), completed := false },
                   { animation := (), completed := true }]
    is_active := true
    on_complete := false }

/-- Witness for the group claim: the empty group reports Completed with the
zero value, and a group with one live member reporting 2 and one completed
member reports the sum 2. -/
theorem group_sums_members_witness :
    AnimationGroup.update f32Animatable unitStep emptyGroup 1
      = (AnimationState.Completed, 0, 0, emptyGroup, false) ∧
    (AnimationGroup.update f32Animatable unitStep twoMemberGroup 1).2.1 = 2 := by
  have h := group_sums_members_and_completes_when_all_do ℚ Unit f32Animatable unitStep
  constructor
  · exact h.1 emptyGroup 1 rfl
  · have h2 := (h.2 twoMemberGroup 1 rfl (by simp [twoMemberGroup])).2.1
    rw [h2]
    norm_num [twoMemberGroup, unitStep, f32Animatable]

/-- C5: a sequence tick drives only the current step: while that step reports
Active the index and every other entry are unchanged and no callback fires;
on the tick a non-final step reports Completed the sequence marks it
completed, advances the index, marks the next step started without stepping
its animation, reports Active and fires no callback (the next step first
receives dt on the following tick); only when the final step reports
Completed does the sequence report Completed, deactivate and fire its
callback; a sequence with zero steps reports Completed immediately. -/
theorem sequence_steps_strictly_ordered (α σ : Type) (ops : Animatable α)
    (step : σ → ℚ → AnimationState × α × α × σ) :
    (∀ (s : AnimationSequence α σ) (dt : ℚ), s.steps = [] →
      (AnimationSequence.update ops step s dt).1 = AnimationState.Completed) ∧
    (∀ (s : AnimationSequence α σ) (dt : ℚ) (cur : AnimationStep σ),
      s.is_active = true → s.steps.get? s.current_step = some cur →
      (step cur.animation dt).1 = AnimationState.Active →
      (AnimationSequence.update ops step s dt).1 = AnimationState.Active ∧
      (AnimationSequence.update ops step s dt).2.2.2.1.current_step = s.current_step ∧
      (AnimationSequence.update ops step s dt).2.2.2.1.steps
        = s.steps.set s.current_step
            { cur with animation := (step cur.animation dt).2.2.2, started := true } ∧
      (∀ (j : Nat), j ≠ s.current_step →
        (AnimationSequence.update ops step s dt).2.2.2.1.steps.get? j
          = s.steps.get? j) ∧
      (AnimationSequence.update ops step s dt).2.2.2.2 = false) ∧
    (∀ (s : AnimationSequence α σ) (dt : ℚ) (cur nxt : AnimationStep σ),
      s.is_active = true → s.steps.get? s.current_step = some cur →
      s.steps.get? (s.current_step + 1) = some nxt →
      (step cur.animation dt).1 = AnimationState.Completed →
      (AnimationSequence.update ops step s dt).1 = AnimationState.Active ∧
      (AnimationSequence.update ops step s dt).2.2.2.1.current_step
        = s.current_step + 1 ∧
      (AnimationSequence.update ops step s dt).2.2.2.1.steps.get? s.current_step
        = some { cur with
                 animation := (step cur.animation dt).2.2.2
                 started := true
                 completed := true } ∧
      (AnimationSequence.update ops step s dt).2.2.2.1.steps.get? (s.current_step + 1)
        = some { nxt with started := true } ∧
      (∀ (j : Nat), j ≠ s.current_step → j ≠ s.current_step + 1 →
        (AnimationSequence.update ops step s dt).2.2.2.1.steps.get? j
          = s.steps.get? j) ∧
      (AnimationSequence.update ops step s dt).2.2.2.2 = false) ∧
    (∀ (s : AnimationSequence α σ) (dt : ℚ) (cur : AnimationStep σ),
      s.is_active = true → s.steps.get? s.current_step = some cur →
      s.current_step + 1 = s.steps.length →
      (step cur.animation dt).1 = AnimationState.Completed →
      (AnimationSequence.update ops step s dt).1 = AnimationState.Completed ∧
      (AnimationSequence.update ops step s dt).2.2.2.1.is_active = false ∧
      (AnimationSequence.update ops step s dt).2.2.2.2 = s.on_complete) := by
  refine ⟨?_, ?_, ?_, ?_⟩
  · intro s dt hempty
    unfold AnimationSequence.update
    by_cases hact : s.is_active = false
    · rw [if_pos hact]
    · rw [if_neg hact, if_pos (by rw [hempty]; rfl)]
  · intro s dt cur hact hget hstate
    have hlt : s.current_step < s.steps.length := (List.get?_eq_some.mp hget).1
    have hne : ¬ s.steps.isEmpty = true := by
      intro h
      rw [List.isEmpty_iff.mp h] at hget
      simp at hget
    unfold AnimationSequence.update
    rw [if_neg (by rw [hact]; simp), if_neg hne, hget]
    dsimp only
    rcases hs : step cur.animation dt with ⟨st, v, w, a'⟩
    have hst : st = AnimationState.Active := by rw [hs] at hstate; exact hstate
    subst hst
    rw [if_neg (by simp)]
    refine ⟨rfl, rfl, rfl, ?_, rfl⟩
    intro j hj
    exact List.get?_set_ne _ _ (fun h => hj h.symm)
  · intro s dt cur nxt hact hget hnext hstate
    have hlt : s.current_step < s.steps.length := (List.get?_eq_some.mp hget).1
    have hlt2 : s.current_step + 1 < s.steps.length := (List.get?_eq_some.mp hnext).1
    have hne : ¬ s.steps.isEmpty = true := by
      intro h
      rw [List.isEmpty_iff.mp h] at hget
      simp at hget
    unfold AnimationSequence.update
    rw [if_neg (by rw [hact]; simp), if_neg hne, hget]
    dsimp only
    rcases hs : step cur.animation dt with ⟨st, v, w, a'⟩
    have hst : st = AnimationState.Completed := by rw [hs] at hstate; exact hstate
    subst hst
    rw [if_pos rfl, if_pos (by omega)]
    have hget2 : (s.steps.set s.current_step
        { cur with animation := a', started := true, completed := true }).get?
          (s.current_step + 1) = some nxt := by
      rw [List.get?_set_ne _ _ (by omega)]
      exact hnext
    rw [hget2]
    dsimp only
    refine ⟨rfl, rfl, ?_, ?_, ?_, rfl⟩
    · rw [List.get?_set_ne _ _ (by omega),
        List.get?_set_eq_of_lt _ hlt]
    · rw [List.get?_set_eq_of_lt]
      rw [List.length_set]
      exact hlt2
    · intro j hj1 hj2
      rw [List.get?_set_ne _ _ (fun h => hj2 h.symm),
        List.get?_set_ne _ _ (fun h => hj1 h.symm)]
  · intro s dt cur hact hget hlast hstate
    have hlt : s.current_step < s.steps.length := (List.get?_eq_some.mp hget).1
    have hne : ¬ s.steps.isEmpty = true := by
      intro h
      rw [List.isEmpty_iff.mp h] at hget
      simp at hget
    unfold AnimationSequence.update
    rw [if_neg (by rw [hact]; simp), if_neg hne, hget]
    dsimp only
    rcases hs : step cur.animation dt with ⟨st, v, w, a'⟩
    have hst : st = AnimationState.Completed := by rw [hs] at hstate; exact hstate
    subst hst
    rw [if_pos rfl, if_neg (by omega)]
    exact ⟨rfl, rfl, rfl⟩

/-- A toy step for sequence witnesses: an animation tagged true completes
immediately, one tagged false stays active; both report value 7. -/
def seqStep : Bool → ℚ → AnimationState × ℚ × ℚ × Bool :=
  fun b _ => (if b then AnimationState.Completed else AnimationState.Active, 7, 0, b)

/-- A sequence with no steps. -/
def emptySeq : AnimationSequence ℚ Bool :=
  { steps := []
    current_step := 0
    current := 0
    velocity := 0
    is_active := false
    on_complete := false }

/-- A two-step sequence whose current step completes this tick. -/
def advanceSeq : AnimationSequence ℚ Bool :=
  { steps := [{ animation := true, started := true, completed := false },
              { animation := false, started := false, completed := false }]
    current_step := 0
    current := 0
    velocity := 0
    is_active := true
    on_complete := true }

/-- A one-step sequence whose only step completes this tick. -/
def finalSeq : AnimationSequence ℚ Bool :=
  { steps := [{ animation := true, started := true, completed := false }]
    current_step := 0
    current := 0
    velocity := 0
    is_active := true
    on_complete := true }

/-- Witness for the sequence ordering claim: the empty sequence completes
immediately; completing a non-final step advances the index, reports Active
and fires nothing; completing the final step reports Completed and fires the
callback. -/
theorem sequence_steps_strictly_ordered_witness :
    (AnimationSequence.update f32Animatable seqStep emptySeq 1).1
      = AnimationState.Completed ∧
    (AnimationSequence.update f32Animatable seqStep advanceSeq 1).1
      = AnimationState.Active ∧
    (AnimationSequence.update f32Animatable seqStep advanceSeq 1).2.2.2.1.current_step
      = 1 ∧
    (AnimationSequence.update f32Animatable seqStep advanceSeq 1).2.2.2.2 = false ∧
    (AnimationSequence.update f32Animatable seqStep finalSeq 1).1
      = AnimationState.Completed ∧
    (AnimationSequence.update f32Animatable seqStep finalSeq 1).2.2.2.2 = true := by
  have h := sequence_steps_strictly_ordered ℚ Bool f32Animatable seqStep
  have hadv := h.2.2.1 advanceSeq 1
    { animation := true, started := true, completed := false }
    { animation := false, started := false, completed := false } rfl rfl rfl rfl
  have hfin := h.2.2.2 finalSeq 1
    { animation := true, started := true, completed := false } rfl rfl rfl rfl
  exact ⟨h.1 emptySeq 1 rfl, hadv.1, hadv.2.1, hadv.2.2.2.2.2, hfin.1, hfin.2.2⟩

/-- The in-animation position a keyframe tick computes: elapsed time over
duration clamped to the unit interval, flipped when playing in reverse. -/
def keyframePosition {α : Type} (a : KeyframeAnimation α) (dt : ℚ) : ℚ :=
  let p0 := min (max ((a.current_time + dt) / a.duration) 0) 1
  if a.timing.is_reverse then 1 - p0 else p0

/-- The normalized position inside one keyframe segment: distance from the
previous key over the segment length, 0 when the segment length is not
positive. -/
def keyframeSegmentT (pp np p : ℚ) : ℚ :=
  if 0 < np - pp then (p - pp) / (np - pp) else 0

/-- The eased segment position: the previous keyframe's easing applied to the
segment position, linear when none is set. -/
def keyframeEased {α : Type} (kf : Keyframe α) (t : ℚ) : ℚ :=
  match kf.easing with
  | none => linearEaseInOut t 0 1 1
  | some e => e t 0 1 1

lemma findSurroundingAux_cons {α : Type} (p q : ℚ) (kf : Keyframe α)
    (prev : Option (ℚ × Keyframe α)) (rest : List (ℚ × Keyframe α)) :
    findSurroundingAux p prev ((q, kf) :: rest) =
      if q ≤ p then findSurroundingAux p (some (q, kf)) rest
      else (prev, some (q, kf)) := rfl

lemma keyframePosition_nonneg {α : Type} (a : KeyframeAnimation α) (dt : ℚ) :
    0 ≤ keyframePosition a dt := by
  unfold keyframePosition
  by_cases hr : a.timing.is_reverse
  · simp only [hr, if_true, if_pos]
    have h := min_le_right (max ((a.current_time + dt) / a.duration) 0) 1
    linarith
  · have hr' : a.timing.is_reverse = false := by simpa using hr
    simp only [hr', if_false]
    exact le_min (le_max_right _ _) zero_le_one

lemma findSurroundingAux_prev_isSome {α : Type} (p : ℚ) :
    ∀ (l : List (ℚ × Keyframe α)) (x : ℚ × Keyframe α),
      ((findSurroundingAux p (some x) l).1).isSome = true := by
  intro l
  induction l with
  | nil => intro x; rfl
  | cons hd tl ih =>
    intro x
    rcases hd with ⟨q, kf⟩
    unfold findSurroundingAux
    by_cases h : q ≤ p
    · rw [if_pos h]
      exact ih (q, kf)
    · rw [if_neg h]
      rfl

lemma insertKeyframe_head_zero {α : Type} (kf0 : Keyframe α)
    (rest : List (ℚ × Keyframe α)) (q : ℚ) (kf : Keyframe α) (hq : 0 ≤ q) :
    ∃ kf0' rest', insertKeyframe ((0, kf0) :: rest) q kf = (0, kf0') :: rest' := by
  unfold insertKeyframe
  rw [if_neg (not_lt.mpr hq)]
  by_cases h : q = 0
  · subst h
    rw [if_pos rfl]
    exact ⟨kf, rest, rfl⟩
  · rw [if_neg h]
    exact ⟨kf0, insertKeyframe rest q kf, rfl⟩

lemma keyframe_table_head_zero_new {α : Type} (ops : Animatable α) (duration : ℚ) :
    ∃ kf0 rest, (KeyframeAnimation.new ops duration).keyframes = (0, kf0) :: rest :=
  ⟨{ value := ops.zero, easing := none }, [(1, { value := ops.zero, easing := none })], rfl⟩

lemma keyframe_table_head_zero_add {α : Type} (a : KeyframeAnimation α)
    (p : ℚ) (v : α) (kf0 : Keyframe α) (rest : List (ℚ × Keyframe α))
    (h : a.keyframes = (0, kf0) :: rest) :
    ∃ kf0' rest', (a.add_keyframe p v).keyframes = (0, kf0') :: rest' := by
  unfold KeyframeAnimation.add_keyframe
  rw [h]
  exact insertKeyframe_head_zero kf0 rest (min (max p 0) 1)
    { value := v, easing := none } (le_min (le_max_right _ _) zero_le_one)

/-- C8: on an in-progress keyframe tick (delay passed, new elapsed time still
below the duration) over a table whose first key is 0 (every table built by
the constructor and the add methods has this shape), the surrounding-pair
scan yields a previous keyframe, and the reported value is the previous
keyframe's value interpolated toward the next keyframe's value by the
previous keyframe's easing (linear if none) of the segment position (0 on a
zero-length segment) when a next keyframe exists, and snaps to the previous
keyframe's value when the position lies past every key; in particular a
table with entries only at 0.0 and 1.0 and no easing, sampled at position
0.3, yields the linear interpolation of the two values at t = 0.3. -/
theorem keyframe_value_from_bounding_pair (α : Type) (ops : Animatable α) :
    (∀ (a : KeyframeAnimation α) (dt : ℚ) (kf0 : Keyframe α)
      (rest : List (ℚ × Keyframe α)),
      a.is_active = true →
      (a.timing.delay_elapsed = true ∨ a.timing.delay = 0) →
      a.current_time + dt < a.duration →
      a.keyframes = (0, kf0) :: rest →
      ∃ pp pkf,
        (a.find_surrounding_keyframes (keyframePosition a dt)).1 = some (pp, pkf) ∧
        ((∃ np nkf,
            (a.find_surrounding_keyframes (keyframePosition a dt)).2 = some (np, nkf) ∧
            (KeyframeAnimation.update ops a dt).2.1
              = ops.interpolate pkf.value nkf.value
                  (keyframeEased pkf (keyframeSegmentT pp np (keyframePosition a dt)))) ∨
         ((a.find_surrounding_keyframes (keyframePosition a dt)).2 = none ∧
          (KeyframeAnimation.update ops a dt).2.1 = pkf.value))) ∧
    (∀ (v0 v1 : α),
      (KeyframeAnimation.update ops
        { keyframes := [(0, { value := v0, easing := none }),
                        (1, { value := v1, easing := none })]
          duration := 1
          timing := AnimationTiming.default
          current_time := 0
          current := v0
          velocity := ops.zero
          prev_time := 0
          prev_value := v0
          is_active := true } (3/10)).2.1 = ops.interpolate v0 v1 (3/10)) := by
  constructor
  · intro a dt kf0 rest hact hdel hlt hkf
    unfold KeyframeAnimation.update
    rw [if_neg (by rw [hact]; simp)]
    rcases hd : a.timing.handle_delay dt with ⟨b, t'⟩
    have hb : b = true := by
      have h := (AnimationTiming.handle_delay_pass a.timing dt hdel).1
      rw [hd] at h
      exact h
    subst hb
    dsimp only
    rw [if_neg (not_le.mpr hlt)]
    have hrev : t'.is_reverse = a.timing.is_reverse := by
      have h := AnimationTiming.handle_delay_is_reverse a.timing dt
      rw [hd] at h
      exact h
    rw [hrev]
    unfold KeyframeAnimation.find_surrounding_keyframes keyframePosition
    have hpos : (0:ℚ) ≤ keyframePosition a dt := keyframePosition_nonneg a dt
    unfold keyframePosition at hpos
    dsimp only at hpos ⊢
    rcases hfs : findSurroundingAux
        (if a.timing.is_reverse = true then
          1 - min (max ((a.current_time + dt) / a.duration) 0) 1
        else min (max ((a.current_time + dt) / a.duration) 0) 1)
        none a.keyframes with ⟨prevO, nextO⟩
    have hsome : prevO.isSome = true := by
      have h0 : findSurroundingAux
          (if a.timing.is_reverse = true then
            1 - min (max ((a.current_time + dt) / a.duration) 0) 1
          else min (max ((a.current_time + dt) / a.duration) 0) 1)
          (none : Option (ℚ × Keyframe α)) a.keyframes
          = findSurroundingAux
              (if a.timing.is_reverse = true then
                1 - min (max ((a.current_time + dt) / a.duration) 0) 1
              else min (max ((a.current_time + dt) / a.duration) 0) 1)
              (some (0, kf0)) rest := by
        rw [hkf, findSurroundingAux_cons, if_pos hpos]
      rw [h0] at hfs
      have h1 := findSurroundingAux_prev_isSome
        (if a.timing.is_reverse = true then
          1 - min (max ((a.current_time + dt) / a.duration) 0) 1
        else min (max ((a.current_time + dt) / a.duration) 0) 1) rest (0, kf0)
      rw [hfs] at h1
      exact h1
    rcases prevO with _ | ⟨pp, pkf⟩
    · simp at hsome
    · refine ⟨pp, pkf, rfl, ?_⟩
      rcases nextO with _ | ⟨np, nkf⟩
      · exact Or.inr ⟨rfl, rfl⟩
      · refine Or.inl ⟨np, nkf, rfl, ?_⟩
        dsimp only
        unfold keyframeEased keyframeSegmentT
        rfl
  · intro v0 v1
    norm_num [KeyframeAnimation.update, AnimationTiming.handle_delay,
      AnimationTiming.default, AnimationTiming.is_reverse, findSurroundingAux,
      linearEaseInOut]

/-- A keyframe table built through the public constructors with value 2 at
position 0 and value 6 at position 1, over one second. -/
def kaWitness : KeyframeAnimation ℚ :=
  ((KeyframeAnimation.new f32Animatable 1).add_keyframe 0 2).add_keyframe 1 6

/-- Witness for the keyframe claim: sampling the 0-to-1 table from 2 to 6 at
position 0.3 finds the bounding pair and reports the linear interpolation
16/5. -/
theorem keyframe_value_from_bounding_pair_witness :
    (∃ pp pkf,
      (kaWitness.find_surrounding_keyframes (keyframePosition kaWitness (3/10))).1
        = some (pp, pkf) ∧
      ((∃ np nkf,
          (kaWitness.find_surrounding_keyframes (keyframePosition kaWitness (3/10))).2
            = some (np, nkf) ∧
          (KeyframeAnimation.update f32Animatable kaWitness (3/10)).2.1
            = f32Animatable.interpolate pkf.value nkf.value
                (keyframeEased pkf
                  (keyframeSegmentT pp np (keyframePosition kaWitness (3/10))))) ∨
       ((kaWitness.find_surrounding_keyframes (keyframePosition kaWitness (3/10))).2
          = none ∧
        (KeyframeAnimation.update f32Animatable kaWitness (3/10)).2.1 = pkf.value))) ∧
    (KeyframeAnimation.update f32Animatable kaWitness (3/10)).2.1 = 16/5 := by
  constructor
  · exact (keyframe_value_from_bounding_pair ℚ f32Animatable).1 kaWitness (3/10)
      { value := 2, easing := none } [(1, { value := 6, easing := none })]
      rfl (Or.inr rfl)
      (by norm_num [kaWitness, KeyframeAnimation.new, KeyframeAnimation.add_keyframe,
        insertKeyframe, f32Animatable])
      rfl
  · norm_num [kaWitness, KeyframeAnimation.new, KeyframeAnimation.add_keyframe,
      insertKeyframe, KeyframeAnimation.update, AnimationTiming.handle_delay,
      AnimationTiming.default, AnimationTiming.is_reverse, findSurroundingAux,
      linearEaseInOut, f32Animatable]
